import Mathlib

/-!
Verification development for the three infrastructure services of the
`banditbenchmark` repository (`coba.execution`): the configuration
`TemplatingEngine`, the compressed keyed `DiskCache`, and the hierarchical
`UniversalLogger`.  The implementation module `coba/execution.py` is not part
of the source snapshot (only its test suite `coba/tests/test_execution.py`
is), so every operation below is modelled from the specification document,
refined by the behaviour the repository's own tests pin down.  JSON numbers
are modelled as integers (every configuration exercised by the repository
uses integer scalars only).
-/

set_option maxHeartbeats 1000000


mutual

/-- Configuration tree ("ConfigNode" of the spec): a scalar, an ordered list,
or an insertion-ordered string-keyed map.  `JList` and `JObj` are the
list/map spines, made mutual so that all recursion stays structural. -/
inductive JVal where
  | str (s : String)
  | num (n : Int)
  | bool (b : Bool)
  | null
  | arr (items : JList)
  | obj (fields : JObj)
deriving DecidableEq

/-- Spine of an ordered JSON list. -/
inductive JList where
  | nil
  | cons (head : JVal) (tail : JList)
deriving DecidableEq

/-- Spine of an insertion-ordered JSON map. -/
inductive JObj where
  | nil
  | cons (key : String) (val : JVal) (tail : JObj)
deriving DecidableEq

end


instance {ε α : Type} [DecidableEq ε] [DecidableEq α] :
    DecidableEq (Except ε α) := fun a b =>
  match a, b with
  | .ok x, .ok y => decidable_of_iff (x = y) (by simp)
  | .error x, .error y => decidable_of_iff (x = y) (by simp)
  | .ok _, .error _ => isFalse (by simp)
  | .error _, .ok _ => isFalse (by simp)

/-- First value stored under `k`, if any (Python `dict` lookup). -/
def JObj.lookupKey : JObj → String → Option JVal
  | .nil, _ => none
  | .cons k v t, k2 => if k = k2 then some v else JObj.lookupKey t k2

/-- Whether the map has an entry for `k`. -/
def JObj.hasKey (o : JObj) (k : String) : Bool :=
  (o.lookupKey k).isSome

/-- Remove every entry whose key is `k` (Python `dict.pop`). -/
def JObj.removeKey : JObj → String → JObj
  | .nil, _ => .nil
  | .cons k v t, k2 => if k = k2 then JObj.removeKey t k2
      else .cons k v (JObj.removeKey t k2)

/-- Concatenation of map spines. -/
def JObj.append : JObj → JObj → JObj
  | .nil, o => o
  | .cons k v t, o => .cons k v (JObj.append t o)

/-- Element at index `i` of a list spine. -/
def JList.get? : JList → Nat → Option JVal
  | .nil, _ => none
  | .cons x _, 0 => some x
  | .cons _ t, i + 1 => JList.get? t i

/-- `some name` when `s` is exactly `"$" ++ name`; `none` otherwise.  This is
the spec's "`$`-prefixed, with the `$` stripped". -/
def dollarStrip (s : String) : Option String :=
  match s.data with
  | '$' :: rest => some (String.mk rest)
  | _ => none

/-- Substitution table of a reference node: every `$`-prefixed sibling key,
with the `$` stripped, bound to its value (spec §4.1 step 3). -/
def bindingsOf : JObj → JObj
  | .nil => .nil
  | .cons k v t =>
      match dollarStrip k with
      | some n => .cons n v (bindingsOf t)
      | none => bindingsOf t

mutual

/-- Walk a deep copy of a template definition replacing every scalar string
that is exactly `$`+name of a bound name by the bound value (the value
itself, not a stringification) — spec §4.1 step 3. -/
def substituteV (binds : JObj) : JVal → JVal
  | .str s =>
      match dollarStrip s with
      | some n =>
          match binds.lookupKey n with
          | some v => v
          | none => .str s
      | none => .str s
  | .arr xs => .arr (substituteL binds xs)
  | .obj kvs => .obj (substituteO binds kvs)
  | v => v

/-- `substituteV` mapped over a list spine. -/
def substituteL (binds : JObj) : JList → JList
  | .nil => .nil
  | .cons x t => .cons (substituteV binds x) (substituteL binds t)

/-- `substituteV` mapped over the values of a map spine (keys untouched). -/
def substituteO (binds : JObj) : JObj → JObj
  | .nil => .nil
  | .cons k v t => .cons k (substituteV binds v) (substituteO binds t)

end


mutual

/-- No map anywhere in the tree carries the reserved `template` key: the tree
contains no template reference. -/
def templateFreeV : JVal → Bool
  | .arr xs => templateFreeL xs
  | .obj kvs => !kvs.hasKey "template" && templateFreeO kvs
  | _ => true

/-- `templateFreeV` over a list spine. -/
def templateFreeL : JList → Bool
  | .nil => true
  | .cons x t => templateFreeV x && templateFreeL t

/-- `templateFreeV` over the values of a map spine. -/
def templateFreeO : JObj → Bool
  | .nil => true
  | .cons _ v t => templateFreeV v && templateFreeO t

end

/-- Error kinds of the templating engine.  `fuelExhausted` is the model's
rendering of a non-terminating expansion (cyclic templates), which in the
implementation would be an unbounded recursion; it is reachable only when
the fuel bound is too small. -/
inductive TemplateError where
  | malformedConfig
  | unknownTemplate
  | fuelExhausted
deriving DecidableEq

mutual

/-- One expansion layer of the recursive resolution (spec §4.1 step 3):
lists resolve elementwise, maps without a `template` key resolve their
values in place, and a map carrying `template` is a reference: the named
definition is looked up (`unknownTemplate` when absent), deep-copied,
substituted with the `$`-bindings, and handed to `rec`, the resolver for the
next expansion layer. -/
def resolveV (tmpls : JObj) (rec : JVal → Except TemplateError JVal) :
    JVal → Except TemplateError JVal
  | .arr xs => (resolveL tmpls rec xs).map .arr
  | .obj kvs =>
      if kvs.hasKey "template" then
        match kvs.lookupKey "template" with
        | some (.str name) =>
            match tmpls.lookupKey name with
            | some defn => rec (substituteV (bindingsOf kvs) defn)
            | none => .error .unknownTemplate
        | _ => .error .unknownTemplate
      else (resolveO tmpls rec kvs).map .obj
  | v => .ok v

/-- `resolveV` over a list spine, preserving order. -/
def resolveL (tmpls : JObj) (rec : JVal → Except TemplateError JVal) :
    JList → Except TemplateError JList
  | .nil => .ok .nil
  | .cons x t => do
      let x2 ← resolveV tmpls rec x
      let t2 ← resolveL tmpls rec t
      .ok (.cons x2 t2)

/-- `resolveV` over the values of a map spine, keys preserved. -/
def resolveO (tmpls : JObj) (rec : JVal → Except TemplateError JVal) :
    JObj → Except TemplateError JObj
  | .nil => .ok .nil
  | .cons k v t => do
      let v2 ← resolveV tmpls rec v
      let t2 ← resolveO tmpls rec t
      .ok (.cons k v2 t2)

end

/-- Fuel-bounded recursive resolution: each nested template expansion costs
one unit of fuel; structural descent is free.  A template-free tree resolves
with any fuel, including zero. -/
def resolve (tmpls : JObj) : Nat → JVal → Except TemplateError JVal
  | 0, v => resolveV tmpls (fun _ => .error .fuelExhausted) v
  | fuel + 1, v => resolveV tmpls (resolve tmpls fuel) v

/-- `TemplatingEngine.parse` on an already-decoded configuration value
(spec §4.1 steps 2–4): extract and discard the top-level `templates` map if
present (absence means an empty template set), then recursively resolve the
remaining tree. -/
def parseVal (fuel : Nat) (v : JVal) : Except TemplateError JVal :=
  match v with
  | .obj kvs =>
      match kvs.lookupKey "templates" with
      | some (.obj tmpls) => resolve tmpls fuel (.obj (kvs.removeKey "templates"))
      | some _ => .error .malformedConfig
      | none => resolve .nil fuel (.obj kvs)
  | v => resolve .nil fuel v

/-- Whether the top level of a decoded value is a Map or a List. -/
def topIsContainer : JVal → Bool
  | .arr _ => true
  | .obj _ => true
  | _ => false

/-- `TemplatingEngine.parse` on text input (spec §4.1 step 1).  Decoding the
text is done by the host JSON library, which is external to the repository;
its outcome is therefore taken as the argument: `none` stands for text that
is not valid JSON.  Invalid syntax and a non-Map/List top level both fail
with `malformedConfig`; otherwise resolution proceeds as on a value. -/
def parseText (fuel : Nat) (decoded : Option JVal) : Except TemplateError JVal :=
  match decoded with
  | none => .error .malformedConfig
  | some v => if topIsContainer v then parseVal fuel v else .error .malformedConfig

/-- Byte sequences stored in the cache. -/
def Bytes := List Nat
deriving DecidableEq

/-- A file in the modelled filesystem: either readable contents, or a file
whose access raises an operating-system error with the given code (the
spec's "underlying filesystem failures: permissions, disk full"). -/
inductive FsFile where
  | blob (data : Bytes)
  | faulty (code : Nat)
deriving DecidableEq

/-- Modelled from the spec: the durable backing store is a filesystem,
external to the repository, modelled as a path-indexed set of files plus the
set of directories that exist. -/
structure FS where
  files : List (String × FsFile)
  dirs : List String
deriving DecidableEq

/-- Error kinds of the cache: a missing key is `keyNotFound`, distinct from
an underlying filesystem failure, which carries the OS error code through
unwrapped (spec §7). -/
inductive CacheError where
  | keyNotFound
  | fsFailure (code : Nat)
deriving DecidableEq

/-- Modelled from the spec: gzip compression is performed by an external
library; it is modelled as a lossless, invertible encoding (a gzip-style
two-byte magic header in front of the payload). -/
def compress (b : Bytes) : Bytes := 31 :: 139 :: b

/-- Inverse of `compress`; `none` on data that is not a valid archive. -/
def decompress : Bytes → Option Bytes
  | 31 :: 139 :: rest => some rest
  | _ => none

/-- `DiskCache`: records the root directory path at construction; the root
need not exist yet. -/
structure DiskCache where
  root : String
deriving DecidableEq

/-- The derived path of a key: the literal key with the fixed archive suffix
`.gz`, directly under the root (spec §4.2/§6: part of the persisted-state
contract). -/
def DiskCache.keyPath (c : DiskCache) (k : String) : String :=
  c.root ++ "/" ++ k ++ ".gz"

/-- Every ancestor directory of a path, shortest first (what the host's
recursive-directory-creation call brings into existence). -/
def ancestorsOf (p : String) : List String :=
  (List.range p.data.length).filterMap fun i =>
    if p.data.get? i = some '/' then some (String.mk (p.data.take i)) else none

/-- `contains(key)`: true iff a file currently exists at the key's derived
path (Python `in`). -/
def DiskCache.containsKey (c : DiskCache) (fs : FS) (k : String) : Bool :=
  (fs.files.lookup (c.keyPath k)).isSome

/-- `put(key, bytes)`: create the root directory and any missing parents,
compress the payload, and write (overwriting) the blob at the key's derived
path. -/
def DiskCache.put (c : DiskCache) (fs : FS) (k : String) (b : Bytes) : FS :=
  { files := (c.keyPath k, .blob (compress b)) ::
      fs.files.filter (fun kv => kv.1 ≠ c.keyPath k),
    dirs := (ancestorsOf (c.keyPath k) ++ [c.root]).union fs.dirs }

/-- `get(key)`: read and decompress the bytes stored at the key's derived
path.  A missing file is `keyNotFound`; an unreadable or corrupt file is the
underlying filesystem failure, propagated unwrapped. -/
def DiskCache.get (c : DiskCache) (fs : FS) (k : String) :
    Except CacheError Bytes :=
  match fs.files.lookup (c.keyPath k) with
  | none => .error .keyNotFound
  | some (.faulty code) => .error (.fsFailure code)
  | some (.blob d) =>
      match decompress d with
      | some b => .ok b
      | none => .error (.fsFailure 0)

/-- `rmv(key)`: delete the file at the key's derived path; a missing key is
`keyNotFound` (spec §7). -/
def DiskCache.rmv (c : DiskCache) (fs : FS) (k : String) :
    Except CacheError FS :=
  if (fs.files.lookup (c.keyPath k)).isSome then
    .ok { fs with files := fs.files.filter (fun kv => kv.1 ≠ c.keyPath k) }
  else .error .keyNotFound

/-- Modelled from the spec: the production timestamp is wall-clock time from
the host, external to the repository; it is modelled as a deterministic
fixed-width (20-character) decimal rendering of a logical clock that
advances at every emission. -/
def timeStamp (t : Nat) : String :=
  String.mk ((List.range 20).map fun i => Nat.digitChar (t / 10 ^ (19 - i) % 10))

/-- The indent marker of a nesting depth: empty at depth 0, `"  * "` at
depth 1, `"    > "` at depth 2, and the same two-spaces-per-level,
alternating-bullet family beyond (the spec's "documented, extensible
family"). -/
def indentMarker (d : Nat) : String :=
  if d = 0 then ""
  else String.mk (List.replicate (2 * d) ' ') ++ (if d % 2 = 1 then "* " else "> ")

/-- An exception value: an identity (Python object identity), the formatted
stack trace, and the one-line summary. -/
structure Exc where
  id : Nat
  tb : String
  summary : String
deriving DecidableEq

/-- The blank-line-separated exception block: the full stack trace followed
by its one-line summary (spec §4.3). -/
def excBlock (e : Exc) : String :=
  "\n\n" ++ e.tb ++ "\n  " ++ e.summary

/-- State of one `UniversalLogger` instance together with its capturing
sink: the nesting depth (0 at construction, mutated only by scope open and
close), whether the last emitted line was left unterminated by an `end`
override, the logical clock, the identities of exceptions already logged,
and everything handed to the sink so far, in order.  A sink call is a pair
`(message, end)`; `none` is the terminator-absent sentinel (Python's
`None`). -/
structure LogState where
  depth : Nat
  openLine : Bool
  time : Nat
  loggedExcs : List Nat
  out : List (String × Option String)
deriving DecidableEq

/-- A freshly constructed logger with an empty capturing sink. -/
def initLog : LogState :=
  { depth := 0, openLine := false, time := 0, loggedExcs := [], out := [] }

/-- Hand one `(message, end)` pair to the sink; the line stays open exactly
when an `end` override was supplied. -/
def emit (s : LogState) (msg : String) (e : Option String) : LogState :=
  { s with out := s.out ++ [(msg, e)], time := s.time + 1, openLine := e.isSome }

/-- `log(message, end)`: when no line is open, emits one line formatted as
`<fixed-width timestamp><indent marker><message>`; when the previous
emission left its line open (an `end` override), the bare message is handed
to the sink to continue that line (behaviour pinned by the repository's
`test_log`/`test_log_with_1` assertions on unprefixed continuation lines). -/
def logRun (msg : String) (e : Option String) (s : LogState) : LogState :=
  if s.openLine then emit s msg e
  else emit s (timeStamp s.time ++ indentMarker s.depth ++ msg) e

/-- `log_exception(exception)`: a no-op on an exception instance already
marked logged; otherwise closes any open line with a bare newline, emits the
exception block at the current depth with no `end` override, and attaches
the logged marker to the instance. -/
def logExcRun (e : Exc) (s : LogState) : LogState :=
  if e.id ∈ s.loggedExcs then s
  else
    let s1 := if s.openLine then emit s "" none else s
    let s2 := emit s1 (timeStamp s1.time ++ indentMarker s1.depth ++ excBlock e) none
    { s2 with loggedExcs := e.id :: s2.loggedExcs }

/-- Straight-line client programs against one logger instance: the `log` and
`log_exception` calls, sequencing, an exception being raised, and a `with`
block over the `ScopedHandle` returned by `log`. -/
inductive LogProg where
  | skip
  | raise
  | log (msg : String) (e : Option String)
  | logExc (e : Exc)
  | seq (p q : LogProg)
  | scoped (msg : String) (e : Option String) (body : LogProg)

/-- Run a program: the `Bool` is `true` for normal completion and `false`
when an exception is unwinding.  A `scoped` block is Python's `with` over
the handle returned by `log`: the entry emission, a depth increment for the
body, and — on every exit path, normal or unwinding — a depth decrement
followed by one closing emission (the extra sink call the repository's
`test_log_with_1`/`test_log_with_2` leave unasserted between the asserted
indices). -/
def runLog : LogProg → LogState → LogState × Bool
  | .skip, s => (s, true)
  | .raise, s => (s, false)
  | .log m e, s => (logRun m e s, true)
  | .logExc e, s => (logExcRun e s, true)
  | .seq p q, s =>
      match runLog p s with
      | (s1, true) => runLog q s1
      | (s1, false) => (s1, false)
  | .scoped m e body, s =>
      let s1 := logRun m e s
      let s2 := { s1 with depth := s1.depth + 1 }
      let r := runLog body s2
      let s3 := { r.1 with depth := r.1.depth - 1 }
      (logRun "(completed)" none s3, r.2)

/-- Prefix every key of a binding map with `$`, as the sibling keys of a
reference site are written. -/
def dollarizeKeys : JObj → JObj
  | .nil => .nil
  | .cons k v t => .cons ("$" ++ k) v (dollarizeKeys t)

/-- A template reference node: the reserved `template` key naming the
definition, plus the `$`-prefixed substitution bindings. -/
def mkRef (name : String) (b : JObj) : JVal :=
  .obj (.cons "template" (.str name) (dollarizeKeys b))

/-- A position in a configuration tree: the root, an element of a list, or
the value of a map key. -/
inductive JPath where
  | here
  | atIdx (i : Nat) (p : JPath)
  | atKey (k : String) (p : JPath)

/-- The subtree of `v` at position `p`, when the position exists. -/
def getPath : JVal → JPath → Option JVal
  | v, .here => some v
  | .arr xs, .atIdx i p =>
      match xs.get? i with
      | some x => getPath x p
      | none => none
  | .obj kvs, .atKey k p =>
      match kvs.lookupKey k with
      | some v => getPath v p
      | none => none
  | _, _ => none

/-- A scalar that substitution leaves alone under the binding table `b`:
a number, boolean or null, or a string that is not `$`+name for any bound
name. -/
def untouchedScalar (b : JObj) : JVal → Bool
  | .str s =>
      match dollarStrip s with
      | some n => (b.lookupKey n).isNone
      | none => true
  | .num _ => true
  | .bool _ => true
  | .null => true
  | _ => false

/-- The top level of a parsed value carries no `templates` key. -/
def topTemplatesFree : JVal → Bool
  | .obj kvs => !kvs.hasKey "templates"
  | _ => true

/-- Concrete store used by the cache witnesses: an empty filesystem and a
cache rooted at `"r"`. -/
def fsEmpty : FS := { files := [], dirs := [] }

/-- A filesystem with one unreadable file at the test key's derived path. -/
def fsFaulty : FS := { files := [("r/test.csv.gz", .faulty 13)], dirs := ["r"] }

/-- A logger state at depth 1 with its line closed, as inside one scope. -/
def sDepth1 : LogState :=
  { depth := 1, openLine := false, time := 2, loggedExcs := [], out := [] }

/-- C3 counterexample input: a `with` block opened by a `log` with an `end`
override, whose body logs while one handle is open. -/
def c3Prog : LogProg := .scoped "a" (some "b") (.log "c" none)

/-- The exception instance used by the logger witnesses. -/
def excEx : Exc := { id := 1, tb := "TB", summary := "SUM" }

/-- C6 counterexample input: a `log` with an `end` override followed by a
plain `log`. -/
def c6Prog : LogProg := .seq (.log "a" (some "b")) (.log "c" none)

/-- The number of `log`/`log_exception` calls a program makes (each `scoped`
block is opened by one `log` call). -/
def countCalls : LogProg → Nat
  | .skip => 0
  | .raise => 0
  | .log _ _ => 1
  | .logExc _ => 1
  | .seq p q => countCalls p + countCalls q
  | .scoped _ _ body => 1 + countCalls body

/-- C9 counterexample input: a `with` block whose body submits the same
exception instance twice. -/
def c9Prog : LogProg :=
  .scoped "a" none (.seq (.logExc excEx) (.logExc excEx))

/-- The list of reference sites: one reference node per binding map, in
order. -/
def sitesOf (name : String) : List JObj → JList
  | [] => .nil
  | b :: bs => .cons (mkRef name b) (sitesOf name bs)

/-- The expected resolution of the sites: the definition deep-copied and
substituted with each site's bindings, in the same order. -/
def substSites (defn : JVal) : List JObj → JList
  | [] => .nil
  | b :: bs => .cons (substituteV b defn) (substSites defn bs)

/-- Every binding table in the list has template-free bound values. -/
def bindsOk : List JObj → Bool
  | [] => true
  | b :: bs => templateFreeO b && bindsOk bs

/-- Ordinary top-level entries: not named by a reserved key, with
template-free values. -/
def plainEntries : JObj → Bool
  | .nil => true
  | .cons k v t =>
      (k != "templates") && (k != "template") && templateFreeV v && plainEntries t

/-- The template name of the repository's `test_templated_config`. -/
def tmplName : String := "shuffled_openml_classification"

/-- The template definition of the repository's `test_templated_config`. -/
def tmplDefn : JVal :=
  .obj (.cons "seed" (.num 1283) (.cons "type" (.str "classification")
    (.cons "from" (.obj (.cons "format" (.str "openml")
      (.cons "id" (.str "$id") .nil))) .nil)))

/-- The two binding tables `$id=3` and `$id=6` of the repository test. -/
def bindsEx : List JObj :=
  [.cons "id" (.num 3) .nil, .cons "id" (.num 6) .nil]

/-- The non-template top-level entry of the repository test. -/
def othersEx : JObj := .cons "batches" (.obj (.cons "count" (.num 100) .nil)) .nil

/-- The repository test's full configuration. -/
def cfgEx : JVal :=
  .obj (.cons "templates" (.obj (.cons tmplName tmplDefn .nil))
    (othersEx.append (.cons "simulations" (.arr (sitesOf tmplName bindsEx)) .nil)))

/-- The repository test's expected resolved configuration. -/
def cfgExRes : JVal :=
  .obj (othersEx.append
    (.cons "simulations" (.arr (substSites tmplDefn bindsEx)) .nil))

/-- The path of the substituted field `from.id` in the definition. -/
def pathId : JPath := .atKey "from" (.atKey "id" .here)

/-- C4 counterexample input: the top level is itself a template reference
whose expansion re-introduces a top-level `templates` key. -/
def c4X : JVal :=
  .obj (.cons "templates"
      (.obj (.cons "T" (.obj (.cons "templates" (.obj .nil) .nil)) .nil))
    (.cons "template" (.str "T") .nil))

/-- The result of one parse of `c4X`. -/
def c4Y : JVal := .obj (.cons "templates" (.obj .nil) .nil)

/-- The template-free list of the repository's
`test_no_template_string_unchanged_1`. -/
def arrEx : JVal := .arr (.cons (.num 1) (.cons (.num 2) (.cons (.num 3) .nil)))

/-! ## Theorems -/

/-! ## Resolution lemmas -/

mutual

theorem resolveV_tfree (tmpls : JObj) (rec : JVal → Except TemplateError JVal) :
    ∀ v : JVal, templateFreeV v = true → resolveV tmpls rec v = .ok v
  | .str s, _ => rfl
  | .num n, _ => rfl
  | .bool b, _ => rfl
  | .null, _ => rfl
  | .arr xs, h => by
      simp only [templateFreeV] at h
      simp [resolveV, resolveL_tfree tmpls rec xs h, Except.map]
  | .obj kvs, h => by
      simp only [templateFreeV, Bool.and_eq_true, Bool.not_eq_true'] at h
      simp [resolveV, h.1, resolveO_tfree tmpls rec kvs h.2, Except.map]

theorem resolveL_tfree (tmpls : JObj) (rec : JVal → Except TemplateError JVal) :
    ∀ xs : JList, templateFreeL xs = true → resolveL tmpls rec xs = .ok xs
  | .nil, _ => rfl
  | .cons x t, h => by
      simp only [templateFreeL, Bool.and_eq_true] at h
      simp [resolveL, resolveV_tfree tmpls rec x h.1, resolveL_tfree tmpls rec t h.2,
        bind, Except.bind]

theorem resolveO_tfree (tmpls : JObj) (rec : JVal → Except TemplateError JVal) :
    ∀ kvs : JObj, templateFreeO kvs = true → resolveO tmpls rec kvs = .ok kvs
  | .nil, _ => rfl
  | .cons k v t, h => by
      simp only [templateFreeO, Bool.and_eq_true] at h
      simp [resolveO, resolveV_tfree tmpls rec v h.1, resolveO_tfree tmpls rec t h.2,
        bind, Except.bind]

end

/-- A template-free tree resolves to itself with any fuel. -/
theorem resolve_tfree (tmpls : JObj) (fuel : Nat) (v : JVal)
    (h : templateFreeV v = true) : resolve tmpls fuel v = .ok v := by
  cases fuel <;> exact resolveV_tfree tmpls _ v h

mutual

theorem resolveV_ok_tfree (tmpls : JObj) (rec : JVal → Except TemplateError JVal)
    (hrec : ∀ u w, rec u = .ok w → templateFreeV w = true) :
    ∀ (v w : JVal), resolveV tmpls rec v = .ok w → templateFreeV w = true
  | .str s, w, h => by cases h; rfl
  | .num n, w, h => by cases h; rfl
  | .bool b, w, h => by cases h; rfl
  | .null, w, h => by cases h; rfl
  | .arr xs, w, h => by
      simp only [resolveV, Except.map] at h
      cases hx : resolveL tmpls rec xs with
      | ok ys => rw [hx] at h; cases h
                 simpa [templateFreeV] using resolveL_ok_tfree tmpls rec hrec xs ys hx
      | error e => rw [hx] at h; cases h
  | .obj kvs, w, h => by
      simp only [resolveV] at h
      by_cases ht : kvs.hasKey "template" = true
      · rw [if_pos ht] at h
        split at h
        · split at h
          · exact hrec _ _ h
          · cases h
        · cases h
      · rw [if_neg ht] at h
        simp only [Except.map] at h
        cases hx : resolveO tmpls rec kvs with
        | ok kvs2 => rw [hx] at h; cases h
                     have h2 := resolveO_ok_tfree tmpls rec hrec kvs kvs2 hx
                     simp only [templateFreeV, Bool.and_eq_true, Bool.not_eq_true']
                     exact ⟨by rw [h2.2]; simpa using ht, h2.1⟩
        | error e => rw [hx] at h; cases h

theorem resolveL_ok_tfree (tmpls : JObj) (rec : JVal → Except TemplateError JVal)
    (hrec : ∀ u w, rec u = .ok w → templateFreeV w = true) :
    ∀ (xs ys : JList), resolveL tmpls rec xs = .ok ys → templateFreeL ys = true
  | .nil, ys, h => by cases h; rfl
  | .cons x t, ys, h => by
      simp only [resolveL] at h
      cases hx : resolveV tmpls rec x with
      | error e => rw [hx] at h; cases h
      | ok x2 =>
        rw [hx] at h
        cases ht : resolveL tmpls rec t with
        | error e => rw [ht] at h; simp [bind, Except.bind] at h
        | ok t2 =>
          rw [ht] at h
          simp only [bind, Except.bind, pure] at h
          cases h
          simp only [templateFreeL, Bool.and_eq_true]
          exact ⟨resolveV_ok_tfree tmpls rec hrec x x2 hx,
                 resolveL_ok_tfree tmpls rec hrec t t2 ht⟩

theorem resolveO_ok_tfree (tmpls : JObj) (rec : JVal → Except TemplateError JVal)
    (hrec : ∀ u w, rec u = .ok w → templateFreeV w = true) :
    ∀ (kvs kvs2 : JObj), resolveO tmpls rec kvs = .ok kvs2 →
      templateFreeO kvs2 = true ∧ ∀ k, kvs2.hasKey k = kvs.hasKey k
  | .nil, kvs2, h => by cases h; exact ⟨rfl, fun _ => rfl⟩
  | .cons k v t, kvs2, h => by
      simp only [resolveO] at h
      cases hx : resolveV tmpls rec v with
      | error e => rw [hx] at h; cases h
      | ok v2 =>
        rw [hx] at h
        cases ht : resolveO tmpls rec t with
        | error e => rw [ht] at h; simp [bind, Except.bind] at h
        | ok t2 =>
          rw [ht] at h
          simp only [bind, Except.bind, pure] at h
          cases h
          have ih := resolveO_ok_tfree tmpls rec hrec t t2 ht
          refine ⟨?_, ?_⟩
          · simp only [templateFreeO, Bool.and_eq_true]
            exact ⟨resolveV_ok_tfree tmpls rec hrec v v2 hx, ih.1⟩
          · intro k2
            simp [JObj.hasKey, JObj.lookupKey]
            by_cases hk : k = k2
            · simp [hk]
            · simp [hk]
              have := ih.2 k2
              simpa [JObj.hasKey] using this

end

/-- A successfully resolved tree is template-free: no map in the output
carries a `template` key, at any fuel. -/
theorem resolve_ok_tfree (tmpls : JObj) :
    ∀ (fuel : Nat) (v w : JVal), resolve tmpls fuel v = .ok w →
      templateFreeV w = true
  | 0, v, w => resolveV_ok_tfree tmpls _ (fun u w2 h => by cases h) v w
  | fuel + 1, v, w =>
      resolveV_ok_tfree tmpls _ (fun u w2 h => resolve_ok_tfree tmpls fuel u w2 h) v w

/-- A value looked up in a template-free binding table is template-free. -/
theorem templateFreeO_lookup : ∀ (b : JObj) (n : String) (v : JVal),
    templateFreeO b = true → b.lookupKey n = some v → templateFreeV v = true
  | .nil, n, v, _, h => by cases h
  | .cons k w t, n, v, hf, h => by
      simp only [templateFreeO, Bool.and_eq_true] at hf
      simp only [JObj.lookupKey] at h
      by_cases hk : k = n
      · rw [if_pos hk] at h; cases h; exact hf.1
      · rw [if_neg hk] at h; exact templateFreeO_lookup t n v hf.2 h

/-- Substitution replaces values only: the key set of a map is unchanged. -/
theorem substituteO_hasKey (b : JObj) : ∀ (kvs : JObj) (k : String),
    (substituteO b kvs).hasKey k = kvs.hasKey k
  | .nil, _ => rfl
  | .cons k2 v t, k => by
      simp only [substituteO, JObj.hasKey, JObj.lookupKey]
      by_cases hk : k2 = k
      · simp [hk]
      · simp only [if_neg hk]
        exact substituteO_hasKey b t k

mutual

theorem substituteV_tfree (b : JObj) (hb : templateFreeO b = true) :
    ∀ v : JVal, templateFreeV v = true → templateFreeV (substituteV b v) = true
  | .str s, _ => by
      simp only [substituteV]
      cases dollarStrip s with
      | none => rfl
      | some n =>
        simp only
        cases hl : b.lookupKey n with
        | none => rfl
        | some w => exact templateFreeO_lookup b n w hb hl
  | .num n, _ => rfl
  | .bool b2, _ => rfl
  | .null, _ => rfl
  | .arr xs, h => by
      simp only [templateFreeV] at h
      simpa [substituteV, templateFreeV] using substituteL_tfree b hb xs h
  | .obj kvs, h => by
      simp only [templateFreeV, Bool.and_eq_true, Bool.not_eq_true'] at h
      simp only [substituteV, templateFreeV, Bool.and_eq_true, Bool.not_eq_true']
      refine ⟨?_, substituteO_tfree b hb kvs h.2⟩
      rw [substituteO_hasKey b kvs "template"]
      exact h.1

theorem substituteL_tfree (b : JObj) (hb : templateFreeO b = true) :
    ∀ xs : JList, templateFreeL xs = true → templateFreeL (substituteL b xs) = true
  | .nil, _ => rfl
  | .cons x t, h => by
      simp only [templateFreeL, Bool.and_eq_true] at h
      simp only [substituteL, templateFreeL, Bool.and_eq_true]
      exact ⟨substituteV_tfree b hb x h.1, substituteL_tfree b hb t h.2⟩

theorem substituteO_tfree (b : JObj) (hb : templateFreeO b = true) :
    ∀ kvs : JObj, templateFreeO kvs = true → templateFreeO (substituteO b kvs) = true
  | .nil, _ => rfl
  | .cons k v t, h => by
      simp only [templateFreeO, Bool.and_eq_true] at h
      simp only [substituteO, templateFreeO, Bool.and_eq_true]
      exact ⟨substituteV_tfree b hb v h.1, substituteO_tfree b hb t h.2⟩

end

/-- Substitution commutes with map-value lookup. -/
theorem substituteO_lookupKey (b : JObj) : ∀ (kvs : JObj) (k : String),
    (substituteO b kvs).lookupKey k = (kvs.lookupKey k).map (substituteV b)
  | .nil, k => rfl
  | .cons k2 v t, k => by
      simp only [substituteO, JObj.lookupKey]
      by_cases hk : k2 = k
      · simp [hk]
      · simp only [if_neg hk]
        exact substituteO_lookupKey b t k

/-- Substitution commutes with list indexing. -/
theorem substituteL_get? (b : JObj) : ∀ (xs : JList) (i : Nat),
    (substituteL b xs).get? i = (xs.get? i).map (substituteV b)
  | .nil, _ => rfl
  | .cons _ _, 0 => rfl
  | .cons _ t, i + 1 => substituteL_get? b t i

theorem dollarStrip_dollar (k : String) : dollarStrip ("$" ++ k) = some k := by
  simp only [dollarStrip, String.data_append]
  show (match '$' :: k.data with
    | '$' :: rest => some (String.mk rest)
    | _ => none) = some k
  cases k
  rfl

/-- Stripping the `$` off every dollarized key recovers the binding map. -/
theorem bindingsOf_dollarize : ∀ b : JObj, bindingsOf (dollarizeKeys b) = b
  | .nil => rfl
  | .cons k v t => by
      simp only [dollarizeKeys, bindingsOf, dollarStrip_dollar]
      rw [bindingsOf_dollarize t]

/-- Reading the substitution table off a reference node recovers exactly the
bindings: the `template` key is not `$`-prefixed and every `$`-prefixed key
is stripped back to its name. -/
theorem bindingsOf_mkRef (name : String) (b : JObj) :
    bindingsOf (.cons "template" (.str name) (dollarizeKeys b)) = b := by
  have h : dollarStrip "template" = none := by decide
  simp only [bindingsOf, h]
  exact bindingsOf_dollarize b

/-- Expansion of a reference site (spec §4.1 step 3): a map carrying
`template` resolves by looking up the named definition, substituting the
`$`-bindings into a deep copy, and resolving the copy at the next layer. -/
theorem resolveV_mkRef (tmpls : JObj) (rec : JVal → Except TemplateError JVal)
    (name : String) (b : JObj) (defn : JVal)
    (hd : tmpls.lookupKey name = some defn) :
    resolveV tmpls rec (mkRef name b) = rec (substituteV b defn) := by
  show resolveV tmpls rec (.obj (.cons "template" (.str name) (dollarizeKeys b))) = _
  rw [resolveV]
  rw [if_pos (by simp [JObj.hasKey, JObj.lookupKey])]
  have hl : (JObj.cons "template" (.str name) (dollarizeKeys b)).lookupKey "template"
      = some (.str name) := by simp [JObj.lookupKey]
  rw [hl]
  simp only [hd, bindingsOf_mkRef]

/-- Substitution leaves every non-substitutable scalar field of the
definition in place: resolved copies taken at different reference sites
agree on all non-substituted fields. -/
theorem substituteV_getPath_untouched (b : JObj) : ∀ (p : JPath) (defn v : JVal),
    getPath defn p = some v → untouchedScalar b v = true →
    getPath (substituteV b defn) p = some v
  | .here, defn, v, hp, hu => by
      simp only [getPath, Option.some.injEq] at hp
      subst hp
      cases defn with
      | str s =>
          simp only [untouchedScalar] at hu
          simp only [substituteV]
          cases hd : dollarStrip s with
          | none => rfl
          | some n =>
              have hu2 : b.lookupKey n = none := by
                rw [hd] at hu
                simpa [Option.isNone_iff_eq_none] using hu
              simp [hu2, getPath]
      | num n => rfl
      | bool b2 => rfl
      | null => rfl
      | arr xs => simp [untouchedScalar] at hu
      | obj kvs => simp [untouchedScalar] at hu
  | .atIdx i p, defn, v, hp, hu => by
      cases defn with
      | arr xs =>
          simp only [getPath] at hp
          cases hx : xs.get? i with
          | none => rw [hx] at hp; cases hp
          | some x =>
              rw [hx] at hp
              show getPath (.arr (substituteL b xs)) (.atIdx i p) = some v
              simp only [getPath, substituteL_get? b xs i, hx, Option.map_some]
              exact substituteV_getPath_untouched b p x v hp hu
      | str s => cases hp
      | num n => cases hp
      | bool b2 => cases hp
      | null => cases hp
      | obj kvs => cases hp
  | .atKey k p, defn, v, hp, hu => by
      cases defn with
      | obj kvs =>
          simp only [getPath] at hp
          cases hx : kvs.lookupKey k with
          | none => rw [hx] at hp; cases hp
          | some w =>
              rw [hx] at hp
              show getPath (.obj (substituteO b kvs)) (.atKey k p) = some v
              simp only [getPath, substituteO_lookupKey b kvs k, hx, Option.map_some]
              exact substituteV_getPath_untouched b p w v hp hu
      | str s => cases hp
      | num n => cases hp
      | bool b2 => cases hp
      | null => cases hp
      | arr xs => cases hp

/-- Substitution replaces a `$`+name field by exactly the bound value — the
value itself, with its type preserved, not a stringification. -/
theorem substituteV_getPath_bound (b : JObj) : ∀ (p : JPath) (defn : JVal)
    (n : String) (w : JVal), getPath defn p = some (.str ("$" ++ n)) →
    b.lookupKey n = some w → getPath (substituteV b defn) p = some w
  | .here, defn, n, w, hp, hb => by
      simp only [getPath, Option.some.injEq] at hp
      subst hp
      simp only [substituteV, dollarStrip_dollar, hb]
      cases w <;> rfl
  | .atIdx i p, defn, n, w, hp, hb => by
      cases defn with
      | arr xs =>
          simp only [getPath] at hp
          cases hx : xs.get? i with
          | none => rw [hx] at hp; cases hp
          | some x =>
              rw [hx] at hp
              show getPath (.arr (substituteL b xs)) (.atIdx i p) = some w
              simp only [getPath, substituteL_get? b xs i, hx, Option.map_some]
              exact substituteV_getPath_bound b p x n w hp hb
      | str s => cases hp
      | num m => cases hp
      | bool b2 => cases hp
      | null => cases hp
      | obj kvs => cases hp
  | .atKey k p, defn, n, w, hp, hb => by
      cases defn with
      | obj kvs =>
          simp only [getPath] at hp
          cases hx : kvs.lookupKey k with
          | none => rw [hx] at hp; cases hp
          | some v =>
              rw [hx] at hp
              show getPath (.obj (substituteO b kvs)) (.atKey k p) = some w
              simp only [getPath, substituteO_lookupKey b kvs k, hx, Option.map_some]
              exact substituteV_getPath_bound b p v n w hp hb
      | str s => cases hp
      | num m => cases hp
      | bool b2 => cases hp
      | null => cases hp
      | arr xs => cases hp

/-- A successful `parse` produces a template-free tree. -/
theorem parseVal_ok_tfree (fuel : Nat) (x y : JVal)
    (h : parseVal fuel x = .ok y) : templateFreeV y = true := by
  cases x with
  | obj kvs =>
      simp only [parseVal] at h
      cases hl : kvs.lookupKey "templates" with
      | none =>
          rw [hl] at h
          exact resolve_ok_tfree .nil fuel _ y h
      | some tv =>
          rw [hl] at h
          cases tv with
          | obj tmpls => exact resolve_ok_tfree tmpls fuel _ y h
          | str s => cases h
          | num n => cases h
          | bool b => cases h
          | null => cases h
          | arr xs => cases h
  | str s => exact resolve_ok_tfree .nil fuel _ y h
  | num n => exact resolve_ok_tfree .nil fuel _ y h
  | bool b => exact resolve_ok_tfree .nil fuel _ y h
  | null => exact resolve_ok_tfree .nil fuel _ y h
  | arr xs => exact resolve_ok_tfree .nil fuel _ y h

/-- `parse` is the identity on a tree with no top-level `templates` key and
no `template` key in any map, at any fuel. -/
theorem parseVal_tfree (fuel : Nat) (x : JVal) (htop : topTemplatesFree x = true)
    (hfree : templateFreeV x = true) : parseVal fuel x = .ok x := by
  cases x with
  | obj kvs =>
      have htop2 : kvs.lookupKey "templates" = none := by
        simp only [topTemplatesFree, Bool.not_eq_true', JObj.hasKey] at htop
        cases h2 : kvs.lookupKey "templates" with
        | none => rfl
        | some v => simp [h2] at htop
      simp only [parseVal, htop2]
      exact resolve_tfree .nil fuel _ hfree
  | str s => exact resolve_tfree .nil fuel _ hfree
  | num n => exact resolve_tfree .nil fuel _ hfree
  | bool b => exact resolve_tfree .nil fuel _ hfree
  | null => exact resolve_tfree .nil fuel _ hfree
  | arr xs => exact resolve_tfree .nil fuel _ hfree

/-! ## Logger lemmas -/

theorem emit_depth (s : LogState) (m : String) (e : Option String) :
    (emit s m e).depth = s.depth := rfl

theorem logRun_depth (m : String) (e : Option String) (s : LogState) :
    (logRun m e s).depth = s.depth := by
  simp only [logRun]
  by_cases h : s.openLine <;> simp [h, emit]

theorem logExcRun_depth (e : Exc) (s : LogState) :
    (logExcRun e s).depth = s.depth := by
  simp only [logExcRun]
  by_cases h : e.id ∈ s.loggedExcs
  · simp [h]
  · by_cases h2 : s.openLine <;> simp [h, h2, emit]

/-- Every program preserves the nesting depth: each `scoped` block restores
the depth it found, on both the normal and the unwinding exit path. -/
theorem runLog_depth : ∀ (p : LogProg) (s : LogState),
    ((runLog p s).1).depth = s.depth
  | .skip, s => rfl
  | .raise, s => rfl
  | .log m e, s => logRun_depth m e s
  | .logExc e, s => logExcRun_depth e s
  | .seq p q, s => by
      simp only [runLog]
      cases hp : runLog p s with
      | mk s1 ok =>
        cases ok with
        | true =>
            have h1 : s1.depth = s.depth := by
              have := runLog_depth p s; rw [hp] at this; exact this
            simp only []
            rw [runLog_depth q s1, h1]
        | false =>
            have h1 : s1.depth = s.depth := by
              have := runLog_depth p s; rw [hp] at this; exact this
            simpa using h1
  | .scoped m e body, s => by
      simp only [runLog]
      rw [logRun_depth]
      have hb := runLog_depth body
        { logRun m e s with depth := (logRun m e s).depth + 1 }
      simp only [] at hb ⊢
      rw [hb]
      simp [logRun_depth, logRun_depth m e s]

theorem logRun_out (m : String) (e : Option String) (s : LogState) :
    (logRun m e s).out = s.out ++
      [(if s.openLine then m else timeStamp s.time ++ indentMarker s.depth ++ m, e)] := by
  simp only [logRun]
  by_cases h : s.openLine <;> simp [h, emit]

/-- A `log` call hands the sink exactly one `(message, end)` pair, whose
second component is exactly the `end` argument — the terminator-absent
sentinel `none` when omitted. -/
theorem logRun_out_len (m : String) (e : Option String) (s : LogState) :
    (logRun m e s).out.length = s.out.length + 1 := by
  rw [logRun_out]; simp

/-- The fixed-width timestamp is always exactly 20 characters. -/
theorem timeStamp_len (t : Nat) : (timeStamp t).length = 20 := by
  simp [timeStamp, String.length]

/-! ## Cache lemmas -/

theorem lookup_filter_self {α : Type} (p : String) :
    ∀ l : List (String × α), (l.filter (fun kv => kv.1 ≠ p)).lookup p = none
  | [] => rfl
  | (k, v) :: t => by
      simp only [List.filter_cons]
      by_cases hk : k = p
      · rw [if_neg (by simp [hk])]
        exact lookup_filter_self p t
      · rw [if_pos (by simp [hk])]
        simp only [List.lookup]
        rw [beq_eq_false_iff_ne.mpr (Ne.symm hk)]
        exact lookup_filter_self p t

theorem lookup_cons_self {α : Type} (p : String) (v : α) (t : List (String × α)) :
    ((p, v) :: t).lookup p = some v := by
  simp [List.lookup]

theorem lookup_filter_other {α : Type} (p q : String) (hpq : q ≠ p) :
    ∀ l : List (String × α),
      (l.filter (fun kv => kv.1 ≠ p)).lookup q = l.lookup q
  | [] => rfl
  | (k, v) :: t => by
      simp only [List.filter_cons]
      by_cases hk : k = p
      · rw [if_neg (by simp [hk])]
        rw [lookup_filter_other p q hpq t]
        simp only [List.lookup]
        rw [beq_eq_false_iff_ne.mpr (by rw [hk]; exact hpq)]
      · rw [if_pos (by simp [hk])]
        simp only [List.lookup]
        cases hqk : q == k with
        | true => rfl
        | false => exact lookup_filter_other p q hpq t

/-- C2: for every key `k` and byte sequence `b`, `put(k, b)` then `get(k)`
returns exactly `b`; `contains(k)` is true after a successful `put(k, b)`
(every `put` succeeds) and false after `rmv(k)` succeeds. -/
theorem C2_cache_round_trip (c : DiskCache) (fs : FS) (k : String) (b : Bytes) :
    c.get (c.put fs k b) k = .ok b ∧
    c.containsKey (c.put fs k b) k = true ∧
    ∀ fs2, c.rmv fs k = .ok fs2 → c.containsKey fs2 k = false := by
  refine ⟨?_, ?_, ?_⟩
  · simp only [DiskCache.get, DiskCache.put]
    rw [lookup_cons_self]
    simp [compress, decompress]
  · simp only [DiskCache.containsKey, DiskCache.put]
    rw [lookup_cons_self]
    rfl
  · intro fs2 h
    simp only [DiskCache.rmv] at h
    split at h
    · cases h
      simp only [DiskCache.containsKey]
      rw [lookup_filter_self]
      rfl
    · cases h

/-- Witness for C2 at the repository test's key `"test.csv"`. -/
theorem C2_cache_round_trip_witness :
    (DiskCache.mk "r").get ((DiskCache.mk "r").put fsEmpty "test.csv" [116]) "test.csv"
        = .ok [116] ∧
    (DiskCache.mk "r").containsKey ((DiskCache.mk "r").put fsEmpty "test.csv" [116]) "test.csv"
        = true ∧
    ((DiskCache.mk "r").rmv ((DiskCache.mk "r").put fsEmpty "test.csv" [116]) "test.csv"
        = .ok { files := [], dirs := ["r"] } ∧
     (DiskCache.mk "r").containsKey { files := [], dirs := ["r"] } "test.csv" = false) :=
  ⟨(C2_cache_round_trip (DiskCache.mk "r") fsEmpty "test.csv" [116]).1,
   (C2_cache_round_trip (DiskCache.mk "r") fsEmpty "test.csv" [116]).2.1,
   by decide,
   (C2_cache_round_trip (DiskCache.mk "r")
      ((DiskCache.mk "r").put fsEmpty "test.csv" [116]) "test.csv" [116]).2.2
     { files := [], dirs := ["r"] } (by decide)⟩

/-- C7: `get`/`rmv` of a missing key fail with `keyNotFound`, an error kind
distinct from any underlying filesystem failure; a filesystem failure
propagates unwrapped (the OS error code is passed through untouched, with no
internal retry — each operation performs exactly one filesystem access). -/
theorem C7_keyNotFound_distinct (c : DiskCache) (fs : FS) (k : String) :
    (c.containsKey fs k = false →
       c.get fs k = .error .keyNotFound ∧ c.rmv fs k = .error .keyNotFound) ∧
    (∀ code, CacheError.keyNotFound ≠ CacheError.fsFailure code) ∧
    (∀ code, fs.files.lookup (c.keyPath k) = some (.faulty code) →
       c.get fs k = .error (.fsFailure code)) := by
  refine ⟨?_, fun code h => CacheError.noConfusion h, ?_⟩
  · intro h
    simp only [DiskCache.containsKey] at h
    have hn : fs.files.lookup (c.keyPath k) = none := by
      cases h2 : fs.files.lookup (c.keyPath k) with
      | none => rfl
      | some v => simp [h2] at h
    constructor
    · simp [DiskCache.get, hn]
    · simp [DiskCache.rmv, hn]
  · intro code h
    simp [DiskCache.get, h]

/-- Witness for C7: a fresh cache misses, and a permission-denied read (OS
code 13) propagates unwrapped. -/
theorem C7_keyNotFound_distinct_witness :
    ((DiskCache.mk "r").get fsEmpty "test.csv" = .error .keyNotFound ∧
     (DiskCache.mk "r").rmv fsEmpty "test.csv" = .error .keyNotFound) ∧
    (DiskCache.mk "r").get fsFaulty "test.csv" = .error (.fsFailure 13) :=
  ⟨(C7_keyNotFound_distinct (DiskCache.mk "r") fsEmpty "test.csv").1 (by decide),
   (C7_keyNotFound_distinct (DiskCache.mk "r") fsFaulty "test.csv").2.2 13 (by decide)⟩

/-- C10: `put(k, bytes)` stores the blob as a single file directly under the
cache root at the literal key plus the fixed `.gz` suffix (the repository
test's `"test.csv"` under root `"coba/tests/.temp/folder1/folder2"`
manifests as `"coba/tests/.temp/folder1/folder2/test.csv.gz"`), and
`contains`/`get`-relevant state and `rmv` address exactly that file: `put`
writes it and touches no other path, `contains` tests exactly it, and `rmv`
removes exactly it. -/
theorem C10_key_path_contract (c : DiskCache) (fs : FS) (k : String) (b : Bytes) :
    (DiskCache.mk "coba/tests/.temp/folder1/folder2").keyPath "test.csv" =
      "coba/tests/.temp/folder1/folder2/test.csv.gz" ∧
    (c.put fs k b).files.lookup (c.keyPath k) = some (.blob (compress b)) ∧
    (∀ p, p ≠ c.keyPath k → (c.put fs k b).files.lookup p = fs.files.lookup p) ∧
    c.containsKey fs k = (fs.files.lookup (c.keyPath k)).isSome ∧
    (∀ fs2, c.rmv fs k = .ok fs2 →
       ∀ p, p ≠ c.keyPath k → fs2.files.lookup p = fs.files.lookup p) := by
  refine ⟨by decide, ?_, ?_, rfl, ?_⟩
  · simp only [DiskCache.put]
    rw [lookup_cons_self]
  · intro p hp
    simp only [DiskCache.put, List.lookup]
    rw [beq_eq_false_iff_ne.mpr hp]
    exact lookup_filter_other (c.keyPath k) p hp fs.files
  · intro fs2 h p hp
    simp only [DiskCache.rmv] at h
    split at h
    · cases h
      exact lookup_filter_other (c.keyPath k) p hp fs.files
    · cases h

/-- Witness for C10: the untouched-path clauses at a concrete other path. -/
theorem C10_key_path_contract_witness :
    ("q" ≠ (DiskCache.mk "r").keyPath "test.csv") ∧
    ((DiskCache.mk "r").put fsFaulty "test.csv" [5]).files.lookup "q" =
      fsFaulty.files.lookup "q" :=
  ⟨by decide,
   (C10_key_path_contract (DiskCache.mk "r") fsFaulty "test.csv" [5]).2.2.1 "q" (by decide)⟩

/-- C3, as stated, is false on the code: inside one open scoped handle, a
`log` call that follows an emission with an `end` override hands the sink
the bare message `"c"` — too short to carry the depth-1 marker `"  * "`
(the repository's own `test_log_with_1` asserts this bare line). -/
theorem C3_nesting_cex :
    ((runLog c3Prog initLog).1).out.get? 1 = some ("c", none) ∧
    "c".length < "  * ".length := by
  decide

/-- C3 (amended): leaving a handle's scope — normal completion or an
exception unwinding through it — restores the depth it found on every exit
path; and a `log` call issued at depth N whose preceding line was terminated
renders at indentation level N, the marker being empty at depth 0, `"  * "`
at depth 1 and `"    > "` at depth 2. -/
theorem C3_nesting_restore (m : String) (e : Option String) (body : LogProg)
    (s : LogState) :
    ((runLog (.scoped m e body) s).1).depth = s.depth ∧
    (s.openLine = false → ∀ m2, (logRun m2 none s).out =
       s.out ++ [(timeStamp s.time ++ indentMarker s.depth ++ m2, none)]) ∧
    (indentMarker 0 = "" ∧ indentMarker 1 = "  * " ∧ indentMarker 2 = "    > ") := by
  refine ⟨runLog_depth (.scoped m e body) s, ?_, by decide⟩
  intro ho m2
  rw [logRun_out, ho]
  simp

/-- Witness for C3: at depth 1 with the line closed, a `log` renders with
the `"  * "` marker; and a scope opened on `sDepth1` restores depth 1. -/
theorem C3_nesting_restore_witness :
    sDepth1.openLine = false ∧
    (logRun "d" none sDepth1).out =
      sDepth1.out ++ [(timeStamp sDepth1.time ++ indentMarker sDepth1.depth ++ "d", none)] ∧
    ((runLog (.scoped "a" none .skip) sDepth1).1).depth = sDepth1.depth :=
  ⟨by decide,
   (C3_nesting_restore "a" none .skip sDepth1).2.1 (by decide) "d",
   (C3_nesting_restore "a" none .skip sDepth1).1⟩

/-- C5: the first `log_exception(e)` call emits the exception block — the
full stack trace then its one-line summary, preceded by a bare line closer
when a line was left open — and attaches the logged marker to `e`; any
subsequent call on the same instance is a complete no-op that emits nothing,
and `log_exception` never raises. -/
theorem C5_log_exception_dedup (s : LogState) (e : Exc) :
    (e.id ∉ s.loggedExcs →
       (logExcRun e s).out = s.out ++
         (if s.openLine then [("", (none : Option String))] else []) ++
         [(timeStamp (if s.openLine then s.time + 1 else s.time) ++
             indentMarker s.depth ++ excBlock e, none)] ∧
       e.id ∈ (logExcRun e s).loggedExcs) ∧
    (e.id ∈ s.loggedExcs → logExcRun e s = s) ∧
    (runLog (.logExc e) s).2 = true := by
  refine ⟨?_, ?_, rfl⟩
  · intro hnm
    simp only [logExcRun, if_neg hnm]
    by_cases ho : s.openLine <;> simp [ho, emit]
  · intro hm
    simp [logExcRun, hm]

/-- Witness for C5: a fresh logger emits the block once and marks the
instance; re-submitting the now-marked instance is a no-op. -/
theorem C5_log_exception_dedup_witness :
    (excEx.id ∉ initLog.loggedExcs ∧
     (logExcRun excEx initLog).out =
       [(timeStamp 0 ++ indentMarker 0 ++ excBlock excEx, none)] ∧
     excEx.id ∈ (logExcRun excEx initLog).loggedExcs) ∧
    (excEx.id ∈ (logExcRun excEx initLog).loggedExcs ∧
     logExcRun excEx (logExcRun excEx initLog) = logExcRun excEx initLog) :=
  ⟨⟨by decide,
    by have h := (C5_log_exception_dedup initLog excEx).1 (by decide)
       simpa using h.1,
    ((C5_log_exception_dedup initLog excEx).1 (by decide)).2⟩,
   ⟨by decide,
    (C5_log_exception_dedup (logExcRun excEx initLog) excEx).2.1 (by decide)⟩⟩

/-- C6, as stated, is false on the code: the second `log` call's line is the
bare `"c"` — shorter than the 20-character timestamp every formatted line
starts with (the repository's own `test_log` asserts this bare line). -/
theorem C6_line_format_cex :
    ((runLog c6Prog initLog).1).out.get? 1 = some ("c", none) ∧
    "c".length < 20 := by
  decide

/-- C6 (amended): every `log` call issued while no line is open hands the
sink one line formatted as `<fixed-width timestamp><indent marker><message>`
with the `end` argument passed through; the timestamp is always exactly 20
characters; and a `log` whose `end` is omitted always hands the sink the
terminator-absent sentinel `none` — which is not the empty value `some ""`. -/
theorem C6_line_format (s : LogState) (m : String) (e : Option String) :
    (s.openLine = false → (logRun m e s).out =
       s.out ++ [(timeStamp s.time ++ indentMarker s.depth ++ m, e)]) ∧
    (timeStamp s.time).length = 20 ∧
    (∃ line, (logRun m none s).out = s.out ++ [(line, (none : Option String))]) ∧
    (none : Option String) ≠ some "" := by
  refine ⟨?_, timeStamp_len s.time, ?_, by simp⟩
  · intro ho
    rw [logRun_out, ho]
    simp
  · refine ⟨if s.openLine then m else timeStamp s.time ++ indentMarker s.depth ++ m, ?_⟩
    rw [logRun_out]

/-- Witness for C6 at a fresh logger. -/
theorem C6_line_format_witness :
    initLog.openLine = false ∧
    (logRun "a" (some "b") initLog).out =
      initLog.out ++ [(timeStamp initLog.time ++ indentMarker initLog.depth ++ "a", some "b")] :=
  ⟨by decide, (C6_line_format initLog "a" (some "b")).1 (by decide)⟩

/-- C9, as stated, is false on the code: a deduplicated `log_exception`
emits nothing, so this `with` block makes 3 log/log_exception calls but the
sink is invoked only 3 times, not 3 + 1. -/
theorem C9_scope_exit_cex :
    ((runLog c9Prog initLog).1).out.length ≠ countCalls c9Prog + 1 ∧
    ((runLog c9Prog initLog).1).out.length = 3 := by
  decide

/-- C9 (amended): leaving the scope of a `ScopedHandle` emits exactly one
additional sink invocation beyond those of the opening `log` and the body —
on both exit paths — and every `log` call itself emits exactly one; so a
`with` block produces one more sink invocation than its opening call and
body do, which equals the number of calls plus one exactly when no
`log_exception` inside is deduplicated into silence. -/
theorem C9_scope_exit_emission (m : String) (e : Option String) (body : LogProg)
    (s : LogState) :
    ((runLog (.scoped m e body) s).1).out.length =
      ((runLog body { logRun m e s with depth := (logRun m e s).depth + 1 }).1).out.length
        + 1 ∧
    (logRun m e s).out.length = s.out.length + 1 := by
  constructor
  · show (logRun "(completed)" none _).out.length = _
    rw [logRun_out_len]
  · exact logRun_out_len m e s

theorem hasKey_append : ∀ (a b : JObj) (k : String),
    (JObj.append a b).hasKey k = (a.hasKey k || b.hasKey k)
  | .nil, b, k => by simp [JObj.append, JObj.hasKey, JObj.lookupKey]
  | .cons k2 v t, b, k => by
      simp only [JObj.append, JObj.hasKey, JObj.lookupKey]
      by_cases hk : k2 = k
      · simp [hk]
      · simp only [if_neg hk]
        simpa [JObj.hasKey] using hasKey_append t b k

theorem plainEntries_hasKey : ∀ o : JObj, plainEntries o = true →
    o.hasKey "templates" = false ∧ o.hasKey "template" = false
  | .nil, _ => ⟨rfl, rfl⟩
  | .cons k v t, h => by
      simp only [plainEntries, Bool.and_eq_true, bne_iff_ne] at h
      obtain ⟨⟨⟨h1, h2⟩, h3⟩, h4⟩ := h
      have ih := plainEntries_hasKey t h4
      constructor
      · simp only [JObj.hasKey, JObj.lookupKey, if_neg h1]
        simpa [JObj.hasKey] using ih.1
      · simp only [JObj.hasKey, JObj.lookupKey, if_neg h2]
        simpa [JObj.hasKey] using ih.2

theorem removeKey_append : ∀ (a b : JObj) (k : String),
    (JObj.append a b).removeKey k = JObj.append (a.removeKey k) (b.removeKey k)
  | .nil, b, k => rfl
  | .cons k2 v t, b, k => by
      simp only [JObj.append, JObj.removeKey]
      by_cases hk : k2 = k
      · simp [hk, removeKey_append t b k]
      · simp [if_neg hk, removeKey_append t b k, JObj.append]

theorem removeKey_plain : ∀ o : JObj, plainEntries o = true →
    o.removeKey "templates" = o
  | .nil, _ => rfl
  | .cons k v t, h => by
      simp only [plainEntries, Bool.and_eq_true, bne_iff_ne] at h
      obtain ⟨⟨⟨h1, h2⟩, h3⟩, h4⟩ := h
      simp [JObj.removeKey, if_neg h1, removeKey_plain t h4]

/-- Resolving the list of reference sites expands each site in order into
the substituted copy of the (template-free) definition. -/
theorem resolveL_sites (fuel : Nat) (name : String) (defn : JVal)
    (hdefn : templateFreeV defn = true) :
    ∀ bs : List JObj, bindsOk bs = true →
      resolveL (.cons name defn .nil) (resolve (.cons name defn .nil) fuel)
        (sitesOf name bs) = .ok (substSites defn bs)
  | [], _ => rfl
  | b :: bs, h => by
      simp only [bindsOk, Bool.and_eq_true] at h
      simp only [sitesOf, resolveL]
      rw [resolveV_mkRef _ _ name b defn (by simp [JObj.lookupKey])]
      rw [resolve_tfree _ fuel _ (substituteV_tfree b h.1 defn hdefn)]
      rw [resolveL_sites fuel name defn hdefn bs h.2]
      simp [bind, Except.bind, substSites]

/-- Plain top-level entries resolve to themselves around the body entry,
which resolves as given. -/
theorem resolveO_plain_body (tmpls : JObj) (rec : JVal → Except TemplateError JVal)
    (bodyKey : String) (body body2 : JVal)
    (hbody : resolveV tmpls rec body = .ok body2) :
    ∀ others : JObj, plainEntries others = true →
      resolveO tmpls rec (others.append (.cons bodyKey body .nil)) =
        .ok (others.append (.cons bodyKey body2 .nil))
  | .nil, _ => by
      simp [JObj.append, resolveO, hbody, bind, Except.bind]
  | .cons k v t, h => by
      simp only [plainEntries, Bool.and_eq_true, bne_iff_ne] at h
      obtain ⟨⟨⟨h1, h2⟩, h3⟩, h4⟩ := h
      simp only [JObj.append, resolveO]
      rw [resolveV_tfree tmpls rec v h3]
      rw [resolveO_plain_body tmpls rec bodyKey body body2 hbody t h4]
      simp [bind, Except.bind, JObj.append]

/-- `parse` on a top level whose first entry is the `templates` map: extract
it and resolve the remainder. -/
theorem parseVal_cons_templates (fuel : Nat) (tset : JObj) (rest : JObj) :
    parseVal fuel (.obj (.cons "templates" (.obj tset) rest)) =
      resolve tset fuel
        (.obj ((JObj.cons "templates" (.obj tset) rest).removeKey "templates")) := by
  simp [parseVal, JObj.lookupKey]

theorem removeKey_cons_self (k : String) (v : JVal) (t : JObj) :
    (JObj.cons k v t).removeKey k = t.removeKey k := by
  simp [JObj.removeKey]

/-- `resolveV` on a map without a `template` key resolves the values in
place. -/
theorem resolveV_obj_plain (tmpls : JObj) (rec : JVal → Except TemplateError JVal)
    (kvs : JObj) (h : kvs.hasKey "template" = false) :
    resolveV tmpls rec (.obj kvs) = (resolveO tmpls rec kvs).map .obj := by
  simp [resolveV, h]

/-- C1: for a configuration whose top level carries a `templates` map
defining `name` and whose body references `name` at one site per binding
table in `bs`, `parse` removes the `templates` key, leaves the other
top-level entries untouched, and replaces each reference site — in
reference-site order — by a deep copy of the definition in which every
scalar string `$`+n with `n` bound is replaced by that site's bound value;
moreover (site independence) every non-substituted field of each copy is
exactly the definition's field, and every substituted field is exactly the
bound value, type preserved. -/
theorem C1_multisite_substitution (fuel : Nat) (name : String) (defn : JVal)
    (bs : List JObj) (others : JObj) (bodyKey : String)
    (hdefn : templateFreeV defn = true)
    (hbs : bindsOk bs = true)
    (hothers : plainEntries others = true)
    (hbk1 : bodyKey ≠ "templates") (hbk2 : bodyKey ≠ "template") :
    parseVal (fuel + 1)
      (.obj (.cons "templates" (.obj (.cons name defn .nil))
        (others.append (.cons bodyKey (.arr (sitesOf name bs)) .nil)))) =
      .ok (.obj (others.append (.cons bodyKey (.arr (substSites defn bs)) .nil))) ∧
    (∀ (b : JObj) (p : JPath) (v : JVal), getPath defn p = some v →
       untouchedScalar b v = true → getPath (substituteV b defn) p = some v) ∧
    (∀ (b : JObj) (p : JPath) (n : String) (w : JVal),
       getPath defn p = some (.str ("$" ++ n)) → b.lookupKey n = some w →
       getPath (substituteV b defn) p = some w) := by
  refine ⟨?_, fun b p v hp hu => substituteV_getPath_untouched b p defn v hp hu,
    fun b p n w hp hb => substituteV_getPath_bound b p defn n w hp hb⟩
  have hrest : (JObj.append others (.cons bodyKey (.arr (sitesOf name bs)) .nil)
      ).removeKey "templates" =
      JObj.append others (.cons bodyKey (.arr (sitesOf name bs)) .nil) := by
    rw [removeKey_append, removeKey_plain others hothers]
    simp [JObj.removeKey, if_neg hbk1]
  have hnt : (JObj.append others (.cons bodyKey (.arr (sitesOf name bs)) .nil)
      ).hasKey "template" = false := by
    rw [hasKey_append]
    rw [(plainEntries_hasKey others hothers).2]
    simp [JObj.hasKey, JObj.lookupKey, if_neg hbk2]
  have hbody : resolveV (.cons name defn .nil)
      (resolve (.cons name defn .nil) fuel) (.arr (sitesOf name bs)) =
      .ok (.arr (substSites defn bs)) := by
    simp only [resolveV]
    rw [resolveL_sites fuel name defn hdefn bs hbs]
    rfl
  rw [parseVal_cons_templates, removeKey_cons_self, hrest]
  simp only [resolve]
  rw [resolveV_obj_plain _ _ _ hnt]
  rw [resolveO_plain_body _ _ bodyKey _ _ hbody others hothers]
  rfl

/-- Witness for C1 at the repository's `test_templated_config`: the parse
result, an agreeing non-substituted field (`seed`), and the substituted
field `from.id` receiving the bound number 3, type preserved. -/
theorem C1_multisite_substitution_witness :
    (templateFreeV tmplDefn = true ∧ bindsOk bindsEx = true ∧
     plainEntries othersEx = true) ∧
    parseVal 1 cfgEx = .ok cfgExRes ∧
    getPath (substituteV (.cons "id" (.num 3) .nil) tmplDefn) (.atKey "seed" .here) =
      some (.num 1283) ∧
    getPath (substituteV (.cons "id" (.num 3) .nil) tmplDefn) pathId = some (.num 3) :=
  ⟨⟨by decide, by decide, by decide⟩,
   (C1_multisite_substitution 0 tmplName tmplDefn bindsEx othersEx "simulations"
      (by decide) (by decide) (by decide) (by decide) (by decide)).1,
   (C1_multisite_substitution 0 tmplName tmplDefn bindsEx othersEx "simulations"
      (by decide) (by decide) (by decide) (by decide) (by decide)).2.1
     (.cons "id" (.num 3) .nil) (.atKey "seed" .here) (.num 1283)
     (by decide) (by decide),
   (C1_multisite_substitution 0 tmplName tmplDefn bindsEx othersEx "simulations"
      (by decide) (by decide) (by decide) (by decide) (by decide)).2.2
     (.cons "id" (.num 3) .nil) pathId "id" (.num 3) (by decide) (by decide)⟩

/-- C4, as stated, is false on the code: when the resolved tree itself
carries a top-level `templates` key (here because the whole input is one
reference whose definition contains one), a second parse strips that key
again, so `parse(parse(x)) ≠ parse(x)`. -/
theorem C4_idempotence_cex :
    parseVal 1 c4X = .ok c4Y ∧
    parseVal 1 c4Y = .ok (.obj .nil) ∧
    (JVal.obj .nil) ≠ c4Y := by
  decide

/-- C4 (amended): `parse(parse(x)) = parse(x)` for every config whose parse
result has no top-level `templates` key (always the case unless the top
level is itself a reference re-introducing one); and parse is the identity,
at any fuel, on input with no top-level `templates` key and no `template`
key in any map. -/
theorem C4_idempotence_noop (fuel fuel2 : Nat) (x y : JVal) :
    (parseVal fuel x = .ok y → topTemplatesFree y = true →
       parseVal fuel2 y = .ok y) ∧
    (topTemplatesFree x = true → templateFreeV x = true →
       parseVal fuel x = .ok x) := by
  constructor
  · intro h htop
    exact parseVal_tfree fuel2 y htop (parseVal_ok_tfree fuel x y h)
  · intro h1 h2
    exact parseVal_tfree fuel x h1 h2

/-- Witness for C4: re-parsing the parsed repository test configuration is
the identity, and parse is the identity on the template-free list. -/
theorem C4_idempotence_noop_witness :
    (parseVal 1 cfgEx = .ok cfgExRes ∧ topTemplatesFree cfgExRes = true ∧
     parseVal 1 cfgExRes = .ok cfgExRes) ∧
    (topTemplatesFree arrEx = true ∧ templateFreeV arrEx = true ∧
     parseVal 0 arrEx = .ok arrEx) :=
  ⟨⟨by decide, by decide,
    (C4_idempotence_noop 1 1 cfgEx cfgExRes).1 (by decide) (by decide)⟩,
   ⟨by decide, by decide,
    (C4_idempotence_noop 0 0 arrEx arrEx).2 (by decide) (by decide)⟩⟩

/-- C8: text input that is not valid JSON, and text whose decoded top level
is neither a Map nor a List, fail with `malformedConfig`; a reference naming
a definition absent from the template set fails with `unknownTemplate`; in
the `Except` result an error carries no partial output by construction. -/
theorem C8_error_kinds (fuel : Nat) (v : JVal) (tmpls kvs : JObj) (n : String) :
    parseText fuel none = .error .malformedConfig ∧
    (topIsContainer v = false → parseText fuel (some v) = .error .malformedConfig) ∧
    (kvs.lookupKey "template" = some (.str n) → tmpls.lookupKey n = none →
       resolve tmpls fuel (.obj kvs) = .error .unknownTemplate) := by
  refine ⟨rfl, ?_, ?_⟩
  · intro h
    simp [parseText, h]
  · intro h1 h2
    have hk : kvs.hasKey "template" = true := by simp [JObj.hasKey, h1]
    cases fuel with
    | zero => simp only [resolve, resolveV, hk, if_true, h1, h2]
    | succ f => simp only [resolve, resolveV, hk, if_true, h1, h2]

/-- Witness for C8: a scalar top level is malformed, and a reference to the
undefined name `"X"` in an empty template set is a dangling reference. -/
theorem C8_error_kinds_witness :
    (topIsContainer (.num 5) = false ∧
     parseText 1 (some (.num 5)) = .error .malformedConfig) ∧
    ((JObj.cons "template" (.str "X") .nil).lookupKey "template" =
       some (.str "X") ∧
     JObj.lookupKey .nil "X" = none ∧
     resolve .nil 1 (.obj (.cons "template" (.str "X") .nil)) =
       .error .unknownTemplate) :=
  ⟨⟨by decide,
    (C8_error_kinds 1 (.num 5) .nil .nil "X").2.1 (by decide)⟩,
   ⟨by decide, by decide,
    (C8_error_kinds 1 (.num 5) .nil (.cons "template" (.str "X") .nil) "X").2.2
      (by decide) (by decide)⟩⟩
